import Mathlib

/-!
A verification development for the crypto-dashboard pipeline:
`fetch_and_analyze.py` (market fetch with TTL file cache and retry/backoff,
percentage formatting, narrative insights) and `sentiment_rss.py`
(RSS news ingestion with link deduplication, batched sentiment
classification).  Python functions are shallowly embedded as Lean
functions; the network, the hosted model and the SQLite store appear as
explicit parameters (a response oracle, a parsed-response datatype, a list
of table rows).  Fallible Python code (raising indexing, absent values) is
embedded with `Option`.
-/

namespace CryptoDash

/-! ## Python numeric formatting

CPython's `format(x, '.2f')` renders the exact rational value of the IEEE-754
double `x` rounded half-to-even at two decimal places; `'{:,.2f}'` additionally
groups the integer digits in threes with commas.  Doubles are rationals, so the
embedding works with `ℚ` and performs that rounding exactly. -/

/-- Round a rational to the nearest integer, ties to even (the rounding CPython
uses when formatting a float with a fixed number of decimals). -/
def rhe (x : ℚ) : ℤ :=
  let f := Rat.floor x
  let r := x - (f : ℚ)
  if r < 1/2 then f
  else if 1/2 < r then f + 1
  else if f % 2 = 0 then f else f + 1

/-- Two-digit rendering of a number below 100 (the fractional part of a
fixed-two-decimals format). -/
def pad2 (k : ℕ) : String :=
  if k < 10 then "0" ++ toString k else toString k

/-- Embeds the Python format spec `:.2f` applied to the exact value `q`:
round half-to-even at hundredths, then render with exactly two fractional
digits and a leading minus sign for negative results. -/
def pyFixed2 (q : ℚ) : String :=
  let n := rhe (q * 100)
  let sign := if n < 0 then "-" else ""
  let m := n.natAbs
  sign ++ toString (m / 100) ++ "." ++ pad2 (m % 100)

/-- Comma-group a reversed digit string in blocks of three (helper for the
`:,.2f` format spec). -/
def commaChunk : List Char → List Char
  | a :: b :: c :: d :: rest => a :: b :: c :: ',' :: commaChunk (d :: rest)
  | l => l

/-- Embeds the Python format spec `:,.2f`: as `pyFixed2`, with the integer
digits grouped in threes by commas. -/
def pyComma2 (q : ℚ) : String :=
  let n := rhe (q * 100)
  let sign := if n < 0 then "-" else ""
  let m := n.natAbs
  let ip : String := ⟨(commaChunk (toString (m / 100)).data.reverse).reverse⟩
  sign ++ ip ++ "." ++ pad2 (m % 100)

/-! ## fetch_and_analyze.py — helpers and market fetch -/

/-- A JSON value found in a percentage-change field of the CoinGecko
response: absent/JSON-null (Python `None`), a number, or a non-numeric
string. -/
inductive JVal where
  | null
  | num (q : ℚ)
  | str (s : String)
  deriving DecidableEq

/-- `safe_pct` from fetch_and_analyze.py: `None` gives `"N/A"`; a number is
formatted `f"{value:.2f}%"`; a non-numeric value makes the format expression
raise `ValueError`, which the bare `except` turns into `"N/A"`. -/
def safe_pct : JVal → String
  | .null => "N/A"
  | .num v => pyFixed2 v ++ "%"
  | .str _ => "N/A"

/-- The fixed `COINS` list of (CoinGecko id, display symbol) pairs. -/
def COINS : List (String × String) :=
  [("bitcoin", "BTC"), ("ethereum", "ETH"), ("tether", "USDT"),
   ("binancecoin", "BNB"), ("ripple", "XRP"), ("solana", "SOL"),
   ("usd-coin", "USDC"), ("dogecoin", "DOGE"), ("staked-ether", "STETH"),
   ("tron", "TRX")]

/-- One object of the CoinGecko markets JSON array, restricted to the keys
`fetch_crypto_data` reads.  `none` in an `Option` field stands for an absent
key (`dict.get` then yields Python `None`); the five percentage fields keep
the full `JVal` shape because malformed values there are the subject of the
sentinel behaviour. -/
structure Coin where
  id : Option String := none
  name : Option String := none
  symbol : Option String := none
  current_price : Option ℚ := none
  p1h : JVal := .null
  p24h : JVal := .null
  p7d : JVal := .null
  p14d : JVal := .null
  p30d : JVal := .null
  deriving DecidableEq

/-- One formatted row of the market table.  The Lean field names stand for
the dataframe columns "Name", "Symbol", "💰 Price (USD)", "📈 1h Change",
"📉 24h Change", "📆 7d Change", "📆 14d Change", "📆 30d Change". -/
structure Row where
  name : String
  symbol : String
  price : String
  chg1h : String
  chg24h : String
  chg7d : String
  chg14d : String
  chg30d : String
  deriving DecidableEq

/-- `coin_symbols.get(cid, coin.get("symbol", "N/A").upper())`: look the id up
in the `COINS` mapping; otherwise upper-case the coin's own symbol, with
`"N/A"` for an absent symbol. -/
def symbolFor (cid : Option String) (sym : Option String) : String :=
  match cid.bind (fun c => (COINS.find? (fun p => p.1 == c)).map (·.2)) with
  | some s => s
  | none => (sym.getD "N/A").toUpper

/-- The row built for one coin object in the parse loop of
`fetch_crypto_data` (lines 111–122 of fetch_and_analyze.py). -/
def rowOfCoin (coin : Coin) : Row :=
  { name := coin.name.getD "N/A"
    symbol := symbolFor coin.id coin.symbol
    price := "$" ++ pyComma2 (coin.current_price.getD 0)
    chg1h := safe_pct coin.p1h
    chg24h := safe_pct coin.p24h
    chg7d := safe_pct coin.p7d
    chg14d := safe_pct coin.p14d
    chg30d := safe_pct coin.p30d }

/-- The parse loop of `fetch_crypto_data`: one formatted row per element of
the response array, each row depending only on its own coin object. -/
def parseResults (data : List Coin) : List Row :=
  data.map rowOfCoin

/-- One of the five percentage-change columns (1h/24h/7d/14d/30d). -/
inductive PctCol where
  | h1
  | h24
  | d7
  | d14
  | d30
  deriving DecidableEq

/-- Replace a coin's value in the given percentage-change column. -/
def setPct (c : Coin) : PctCol → JVal → Coin
  | .h1, v => { c with p1h := v }
  | .h24, v => { c with p24h := v }
  | .d7, v => { c with p7d := v }
  | .d14, v => { c with p14d := v }
  | .d30, v => { c with p30d := v }

/-- A row's formatted cell in the given percentage-change column. -/
def rowPct (r : Row) : PctCol → String
  | .h1 => r.chg1h
  | .h24 => r.chg24h
  | .d7 => r.chg7d
  | .d14 => r.chg14d
  | .d30 => r.chg30d

/-- A percentage-change field value that is not a number: absent/null, or
carrying a non-numeric value. -/
def isMalformedPct : JVal → Bool
  | .num _ => false
  | _ => true

/-- The cache file `crypto_cache.json`: `{"timestamp": <epoch seconds>,
"data": [<row objects>]}`. -/
structure CacheFile where
  timestamp : ℚ
  data : List Row
  deriving DecidableEq

/-- `CACHE_TTL = 300` seconds. -/
def CACHE_TTL : ℚ := 300

/-- `load_cache` from fetch_and_analyze.py: `none` models both a missing
file and an unreadable one; a readable cache is returned exactly when
`time.time() - cache["timestamp"] < CACHE_TTL` (strict comparison). -/
def load_cache (now : ℚ) (file : Option CacheFile) : Option (List Row) :=
  match file with
  | none => none
  | some c => if now - c.timestamp < CACHE_TTL then some c.data else none

/-- What one `requests.get` attempt produces: a parsed JSON array (status
200), HTTP 429, or any `requests.exceptions.RequestException` (timeout,
connection error, `raise_for_status`). -/
inductive Resp where
  | ok (data : List Coin)
  | rate429
  | reqErr
  deriving DecidableEq

/-- The observable outcome of `fetch_crypto_data`: the returned rows, the
`time.sleep` durations in order, and whether any network attempt was made. -/
structure FetchResult where
  rows : List Row
  sleeps : List ℕ
  network : Bool
  deriving DecidableEq

/-- The retry loop `for attempt in range(3)` of `fetch_crypto_data`.
`cached` is the function's local variable of that name (the `load_cache`
result); the fuel list carries the remaining values of `attempt`.  A 429
sleeps `30 * (attempt + 1)` and continues; a request exception sleeps 10 and
continues when `attempt < 2`, else returns the fallback
`cached if cached is not None else pd.DataFrame()`; the loop's `else` clause
returns the same fallback. -/
def fetchRetry (resps : ℕ → Resp) (cached : Option (List Row)) :
    List ℕ → List ℕ → FetchResult
  | [], sleeps => ⟨cached.getD [], sleeps, true⟩
  | attempt :: rest, sleeps =>
    match resps attempt with
    | .ok data => ⟨parseResults data, sleeps, true⟩
    | .rate429 => fetchRetry resps cached rest (sleeps ++ [30 * (attempt + 1)])
    | .reqErr =>
      if attempt < 2 then fetchRetry resps cached rest (sleeps ++ [10])
      else ⟨cached.getD [], sleeps, true⟩

/-- `fetch_crypto_data` from fetch_and_analyze.py: return a fresh-enough
cache verbatim with no network attempt; otherwise run the three-attempt
retry loop against the response oracle `resps` (the timestamp column and the
cache write on success are not part of the observed result). -/
def fetch_crypto_data (now : ℚ) (file : Option CacheFile) (resps : ℕ → Resp) :
    FetchResult :=
  let cached := load_cache now file
  match cached with
  | some c => ⟨c, [], false⟩
  | none => fetchRetry resps cached [0, 1, 2] []

/-- The retry loop's behaviour written out as a table over the three
attempts' outcomes: a success at attempt `i` returns its parsed rows after
the sleeps already served; every 429 at 0-based attempt `i` contributes a
sleep of `30 * (i + 1)` (also on the final attempt, where no retry can
follow); a request error contributes a sleep of 10 only when a retry
remains; and when no attempt succeeds the function returns an empty table —
never the stale cache file, and never an exception. -/
def netTable (resps : ℕ → Resp) : FetchResult :=
  match resps 0, resps 1, resps 2 with
  | .ok d, _, _ => ⟨parseResults d, [], true⟩
  | .rate429, .ok d, _ => ⟨parseResults d, [30], true⟩
  | .reqErr, .ok d, _ => ⟨parseResults d, [10], true⟩
  | .rate429, .rate429, .ok d => ⟨parseResults d, [30, 60], true⟩
  | .rate429, .reqErr, .ok d => ⟨parseResults d, [30, 10], true⟩
  | .reqErr, .rate429, .ok d => ⟨parseResults d, [10, 60], true⟩
  | .reqErr, .reqErr, .ok d => ⟨parseResults d, [10, 10], true⟩
  | .rate429, .rate429, .rate429 => ⟨[], [30, 60, 90], true⟩
  | .rate429, .rate429, .reqErr => ⟨[], [30, 60], true⟩
  | .rate429, .reqErr, .rate429 => ⟨[], [30, 10, 90], true⟩
  | .rate429, .reqErr, .reqErr => ⟨[], [30, 10], true⟩
  | .reqErr, .rate429, .rate429 => ⟨[], [10, 60, 90], true⟩
  | .reqErr, .rate429, .reqErr => ⟨[], [10, 60], true⟩
  | .reqErr, .reqErr, .rate429 => ⟨[], [10, 10, 90], true⟩
  | .reqErr, .reqErr, .reqErr => ⟨[], [10, 10], true⟩

/-! ## Python float parsing for the percentage cells

`generate_insights` re-parses the formatted cells with
`float(s.replace("%", ""))` and `pd.to_numeric(..., errors="coerce")`.  The
cells this dashboard produces are decimal strings (optional sign, digits,
optional fractional part) or the sentinel `"N/A"`; `pyFloat?` embeds
Python's parse on that grammar, `none` standing for the `ValueError`
(respectively the coerced `NaN`).  A decimal string of at most two
fractional digits round-trips exactly through the nearest double, so the
parse result is modelled as the exact decimal rational. -/

/-- Numeric value of a digit list, most significant first. -/
def digitsToNat (cs : List Char) : ℕ :=
  cs.foldl (fun acc c => 10 * acc + (c.toNat - '0'.toNat)) 0

/-- Value of a fractional digit list (the part after the point). -/
def fracVal (cs : List Char) : ℚ :=
  cs.foldr (fun c acc => (((c.toNat - '0'.toNat : ℕ) : ℚ) + acc) / 10) 0

/-- Parse an unsigned decimal: digits, optionally a point and more digits,
at least one digit in all. -/
def parseUnsignedDec (cs : List Char) : Option ℚ :=
  let ip := cs.takeWhile (·.isDigit)
  match cs.drop ip.length with
  | [] => if ip.isEmpty then none else some (digitsToNat ip)
  | '.' :: fp =>
    if fp.all (·.isDigit) && (!ip.isEmpty || !fp.isEmpty) then
      some ((digitsToNat ip : ℚ) + fracVal fp)
    else none
  | _ => none

/-- Python `float(s)` on the decimal grammar of the dashboard's percentage
cells (other forms Python would accept — exponents, whitespace, `inf` — do
not occur in them). -/
def pyFloatQ (s : String) : Option ℚ :=
  match s.data with
  | '-' :: cs => (parseUnsignedDec cs).map (fun q => -q)
  | '+' :: cs => parseUnsignedDec cs
  | cs => parseUnsignedDec cs

/-! ## generate_insights -/

/-- The fixed empty-table message of `generate_insights`. -/
def WARN_NO_DATA : String :=
  "⚠️ No data available from CoinGecko. Please try again later."

/-- The fixed closing sentence of `generate_insights`. -/
def CLOSING : String :=
  "Overall, the market shows moderate volatility with traders adjusting to global sentiment."

/-- `major_coins = ["Bitcoin", "Ethereum", "BNB"]`. -/
def major_coins : List String := ["Bitcoin", "Ethereum", "BNB"]

/-- `stablecoins = ["Tether", "USDC"]`. -/
def stablecoins : List String := ["Tether", "USDC"]

/-- `float(change_24h.replace("%", ""))` with the bare `except` that maps
any parse failure to `0`. -/
def chg24Val (r : Row) : ℚ :=
  (pyFloatQ (String.replace r.chg24h "%" "")).getD 0

/-- The trend sentence built for one major coin: fell / rose / stayed flat
by the sign of the parsed 24h change. -/
def majorTrend (r : Row) : String :=
  let v := chg24Val r
  if v < 0 then r.name ++ " fell " ++ pyFixed2 (-v) ++ "% to " ++ r.price
  else if 0 < v then r.name ++ " rose " ++ pyFixed2 v ++ "% to " ++ r.price
  else r.name ++ " stayed flat at " ++ r.price

/-- The `major_trends` list of `generate_insights`: one sentence per row
whose name is a major coin, in row order. -/
def majorTrends (df : List Row) : List String :=
  (df.filter (fun r => decide (r.name ∈ major_coins))).map majorTrend

/-- The `stable_trends` list: one "steady at" sentence per stablecoin row. -/
def stableTrends (df : List Row) : List String :=
  (df.filter (fun r => decide (r.name ∈ stablecoins))).map
    (fun r => r.name ++ " steady at " ++ r.price)

/-- One step of the maximum scan: keep the incumbent unless the challenger
is strictly greater (pandas' first-occurrence tie-breaking). -/
def maxStep (best c : Row × ℚ) : Row × ℚ :=
  if best.2 < c.2 then c else best

/-- One step of the minimum scan: keep the incumbent unless the challenger
is strictly smaller. -/
def minStep (best c : Row × ℚ) : Row × ℚ :=
  if c.2 < best.2 then c else best

/-- `Series.idxmax` followed by `.loc`: the first element attaining the
maximum value, `none` for an empty candidate list. -/
def idxmaxSel (l : List (Row × ℚ)) : Option (Row × ℚ) :=
  match l with
  | [] => none
  | h :: t => some (t.foldl maxStep h)

/-- `Series.idxmin` followed by `.loc`: the first element attaining the
minimum value. -/
def idxminSel (l : List (Row × ℚ)) : Option (Row × ℚ) :=
  match l with
  | [] => none
  | h :: t => some (t.foldl minStep h)

/-- The rows of `df_clean = df[df["📉 24h Change"] != "N/A"]` paired with
their `pd.to_numeric(..., errors="coerce")` values; a cell that coerces to
NaN yields no candidate (idxmax/idxmin skip NaN). -/
def gainerCands (df : List Row) : List (Row × ℚ) :=
  (df.filter (fun r => r.chg24h != "N/A")).filterMap
    (fun r => (pyFloatQ (String.replace r.chg24h "%" "")).map (fun v => (r, v)))

/-- The "Top gainer … biggest loser …" sentence of `generate_insights`,
empty when no numeric candidate exists. -/
def gainersSection (df : List Row) : String :=
  match idxmaxSel (gainerCands df), idxminSel (gainerCands df) with
  | some g, some l =>
    "Top gainer: " ++ g.1.name ++ " (" ++ g.1.chg24h ++ "), biggest loser: " ++
      l.1.name ++ " (" ++ l.1.chg24h ++ "). "
  | _, _ => ""

/-- `generate_insights` from fetch_and_analyze.py: the fixed warning on an
empty table, else the "🧠 Insight: " narrative assembled from the major-coin
trends, the stablecoin sentences, the gainer/loser sentence and the fixed
closing sentence.  (The function also computes an unused `others` list,
dropped here.) -/
def generate_insights (df : List Row) : String :=
  if df.isEmpty then WARN_NO_DATA
  else
    let mt := majorTrends df
    let st := stableTrends df
    "🧠 Insight: " ++
      (if mt.isEmpty then "" else String.intercalate " " mt ++ ". ") ++
      (if st.isEmpty then "" else String.intercalate " " st ++ ". ") ++
      gainersSection df ++ CLOSING

/-! ## sentiment_rss.py — sentiment classification -/

/-- One sentiment entry: the shape `{"headline": …, "sentiment": …,
"reason": …}` that `analyze_sentiment_batch` promises. -/
structure SEntry where
  headline : String
  sentiment : String
  reason : String
  deriving DecidableEq

/-- The outcome of the one hosted-model call of `analyze_sentiment_batch`
together with `json.loads` on the stripped content: any exception from the
client (network error, missing content), content that is not JSON, JSON that
is not an array, or a JSON array of entries. -/
inductive LLMResp where
  | apiErr (e : String)
  | nonJSON
  | jsonNonArray
  | jsonArray (xs : List SEntry)
  deriving DecidableEq

/-- `analyze_sentiment_batch` from sentiment_rss.py: a parsed JSON array is
returned as is (whatever its length); a JSON non-array yields one
`Neutral`/"Parsing error" entry per input; a JSON decode error yields one
`Neutral`/"Invalid JSON" entry per input; any exception yields one
`Neutral`/`str(e)` entry per input. -/
def analyze_sentiment_batch (texts : List String) (resp : LLMResp) : List SEntry :=
  match resp with
  | .jsonArray xs => xs
  | .jsonNonArray => texts.map (fun t => ⟨t, "Neutral", "Parsing error"⟩)
  | .nonJSON => texts.map (fun t => ⟨t, "Neutral", "Invalid JSON"⟩)
  | .apiErr e => texts.map (fun t => ⟨t, "Neutral", e⟩)

/-- `analyze_sentiment` from sentiment_rss.py:
`analyze_sentiment_batch([text])[0]`.  Indexing `[0]` raises `IndexError`
on an empty list; the raise is embedded as `none`. -/
def analyze_sentiment (text : String) (resp : LLMResp) : Option SEntry :=
  (analyze_sentiment_batch [text] resp).head?

/-! ## sentiment_rss.py — news ingestion -/

/-- One article extracted from a feed entry: stripped title and link, and
the `published` timestamp (`none` when the RFC-822 parse failed; the epoch
value when it succeeded).  The `content` field of the article frame is
never stored and is omitted. -/
structure Article where
  title : String
  link : String
  published : Option ℤ
  deriving DecidableEq

/-- One row of the `crypto_news` SQLite table. -/
structure NewsRow where
  id : ℕ
  title : String
  link : String
  published : Option ℤ
  sentiment : Option String
  deriving DecidableEq

/-- Comparison on `published` under which a missing timestamp is smallest:
both SQLite's `ORDER BY published DESC` (NULL smallest, hence last in
descending order) and pandas' descending `sort_values` (NaT last) place
absent timestamps at the end. -/
def pubLe (x y : Option ℤ) : Bool :=
  match x, y with
  | none, _ => true
  | some _, none => false
  | some a, some b => a ≤ b

/-- Descending-by-published order on articles for
`df.sort_values(by="published", ascending=False)`. -/
def byPubDesc (a b : Article) : Bool :=
  pubLe b.published a.published

/-- Descending-by-published order on news rows for `ORDER BY published
DESC`. -/
def rowByPubDesc (a b : NewsRow) : Bool :=
  pubLe b.published a.published

/-- `DataFrame.drop_duplicates(subset=["link"])`: keep the first occurrence
of every link.  `seen` accumulates the links already kept. -/
def dedupByLink (seen : List String) : List Article → List Article
  | [] => []
  | a :: rest =>
    if seen.contains a.link then dedupByLink seen rest
    else a :: dedupByLink (a.link :: seen) rest

/-- `INSERT OR IGNORE INTO crypto_news (title, link, published)` against the
unique `link` column: a row whose link is already stored is ignored,
otherwise a fresh row with a null sentiment is appended. -/
def insertOrIgnore (store : List NewsRow) (a : Article) : List NewsRow :=
  if store.any (fun r => r.link == a.link) then store
  else store ++ [⟨store.length + 1, a.title, a.link, a.published, none⟩]

/-- `SELECT * FROM crypto_news WHERE sentiment IS NULL ORDER BY published
DESC LIMIT 20`. -/
def selectUnprocessed (store : List NewsRow) : List NewsRow :=
  (((store.filter (fun r => r.sentiment.isNone)).mergeSort rowByPubDesc).take 20)

/-- `fetch_crypto_news` from sentiment_rss.py over explicit inputs: the
parsed entries of each feed and the current news table.  All feeds'
articles are concatenated, deduplicated by link (first occurrence kept); an
empty frame is returned at once; otherwise the 20 most recently published
are upserted with insert-or-ignore and the still-unprocessed rows are
returned (result, new table).  pandas does not pin the relative order of
rows with equal timestamps; the embedding uses a stable sort. -/
def fetch_crypto_news (feeds : List (List Article)) (store : List NewsRow) :
    List NewsRow × List NewsRow :=
  let df := dedupByLink [] feeds.flatten
  if df.isEmpty then ([], store)
  else
    let df := (df.mergeSort byPubDesc).take 20
    let store := df.foldl insertOrIgnore store
    (selectUnprocessed store, store)

/-- The uniqueness invariant of the `crypto_news` table: no two rows share a
link. -/
def uniqueLinks : List NewsRow → Bool
  | [] => true
  | r :: rest => !(rest.any (fun x => x.link == r.link)) && uniqueLinks rest

/-- How many stored rows carry the link `l`. -/
def linkCount (store : List NewsRow) (l : String) : ℕ :=
  (store.filter (fun r => r.link == l)).length

/-! ## Sample data for concrete instances -/

/-- A market row as a previous successful fetch would have cached it. -/
def staleRow : Row :=
  ⟨"Bitcoin", "BTC", "$100.00", "1.00%", "1.00%", "1.00%", "1.00%", "1.00%"⟩

/-- A gainer row (+5% over 24h). -/
def rowSOL : Row :=
  ⟨"Solana", "SOL", "$150.00", "0.10%", "5.00%", "1.00%", "1.00%", "1.00%"⟩

/-- A loser row (-3% over 24h). -/
def rowADA : Row :=
  ⟨"Cardano", "ADA", "$0.50", "0.10%", "-3.00%", "1.00%", "1.00%", "1.00%"⟩

/-- A major-coin row whose 24h-change cell is the sentinel. -/
def rowBTCNA : Row :=
  ⟨"Bitcoin", "BTC", "$100.00", "N/A", "N/A", "N/A", "N/A", "N/A"⟩

/-- A well-formed CoinGecko object. -/
def coinBTC : Coin :=
  { id := some "bitcoin", name := some "Bitcoin", symbol := some "btc",
    current_price := some 100, p1h := .num 1, p24h := .num 2, p7d := .num 3,
    p14d := .num 4, p30d := .num 5 }

/-- A second well-formed CoinGecko object. -/
def coinETH : Coin :=
  { id := some "ethereum", name := some "Ethereum", symbol := some "eth",
    current_price := some 50, p1h := .num 1, p24h := .num 2, p7d := .num 3,
    p14d := .num 4, p30d := .num 5 }

/-- A news article. -/
def artA : Article := ⟨"T1", "L1", some 100⟩

/-- The same link carried by a second feed with a different title. -/
def artA2 : Article := ⟨"T1 again", "L1", some 90⟩

/-- A second article, with an unparsed publication date. -/
def artB : Article := ⟨"T2", "L2", none⟩

/-! ## Helper lemmas -/

/-- Every path through the retry loop reports a network attempt. -/
theorem fetchRetry_network (resps : ℕ → Resp) (cached : Option (List Row)) :
    ∀ (fuel sleeps : List ℕ), (fetchRetry resps cached fuel sleeps).network = true := by
  intro fuel
  induction fuel with
  | nil => intro sleeps; rfl
  | cons a t ih =>
    intro sleeps
    rw [fetchRetry]
    rcases resps a with d | _ | _
    · rfl
    · exact ih _
    · by_cases ha : a < 2
      · rw [if_pos ha]; exact ih _
      · rw [if_neg ha]

/-- The maximum scan dominates its seed and every scanned element. -/
theorem foldlMax_le (l : List (Row × ℚ)) : ∀ hd : Row × ℚ,
    hd.2 ≤ (l.foldl maxStep hd).2 ∧ ∀ v ∈ l, v.2 ≤ (l.foldl maxStep hd).2 := by
  induction l with
  | nil =>
    intro hd
    exact ⟨le_refl _, by simp⟩
  | cons c t ih =>
    intro hd
    simp only [List.foldl_cons]
    by_cases h : hd.2 < c.2
    · rw [show maxStep hd c = c from if_pos h]
      refine ⟨le_trans (le_of_lt h) (ih c).1, ?_⟩
      intro v hv
      rcases List.mem_cons.1 hv with hveq | hv
      · rw [hveq]; exact (ih c).1
      · exact (ih c).2 v hv
    · rw [show maxStep hd c = hd from if_neg h]
      refine ⟨(ih hd).1, ?_⟩
      intro v hv
      rcases List.mem_cons.1 hv with rfl | hv
      · exact le_trans (le_of_not_lt h) (ih hd).1
      · exact (ih hd).2 v hv

/-- The maximum scan's result is the first element of seed-then-list whose
value equals the maximum (pandas' first-occurrence tie-breaking). -/
theorem foldlMax_first (l : List (Row × ℚ)) : ∀ hd : Row × ℚ,
    (hd :: l).find? (fun c => decide (c.2 = (l.foldl maxStep hd).2)) =
      some (l.foldl maxStep hd) := by
  induction l with
  | nil =>
    intro hd
    simp [List.find?]
  | cons c t ih =>
    intro hd
    simp only [List.foldl_cons]
    by_cases h : hd.2 < c.2
    · simp only [show maxStep hd c = c from if_pos h]
      have hle : c.2 ≤ (t.foldl maxStep c).2 := (foldlMax_le t c).1
      have hne : ¬ (hd.2 = (t.foldl maxStep c).2) := ne_of_lt (lt_of_lt_of_le h hle)
      rw [List.find?_cons_of_neg _ (by simpa using hne)]
      exact ih c
    · simp only [show maxStep hd c = hd from if_neg h]
      have hfind := ih hd
      by_cases hp : hd.2 = (t.foldl maxStep hd).2
      · rw [List.find?_cons_of_pos _ (by simpa using hp)] at hfind
        rw [List.find?_cons_of_pos _ (by simpa using hp)]
        exact hfind
      · rw [List.find?_cons_of_neg _ (by simpa using hp)] at hfind
        have hdle : hd.2 ≤ (t.foldl maxStep hd).2 := (foldlMax_le t hd).1
        have hdlt : hd.2 < (t.foldl maxStep hd).2 := lt_of_le_of_ne hdle hp
        have hcne : ¬ (c.2 = (t.foldl maxStep hd).2) :=
          ne_of_lt (lt_of_le_of_lt (le_of_not_lt h) hdlt)
        rw [List.find?_cons_of_neg _ (by simpa using hp),
          List.find?_cons_of_neg _ (by simpa using hcne)]
        exact hfind

/-- The minimum scan is below its seed and every scanned element. -/
theorem foldlMin_le (l : List (Row × ℚ)) : ∀ hd : Row × ℚ,
    (l.foldl minStep hd).2 ≤ hd.2 ∧ ∀ v ∈ l, (l.foldl minStep hd).2 ≤ v.2 := by
  induction l with
  | nil =>
    intro hd
    exact ⟨le_refl _, by simp⟩
  | cons c t ih =>
    intro hd
    simp only [List.foldl_cons]
    by_cases h : c.2 < hd.2
    · rw [show minStep hd c = c from if_pos h]
      refine ⟨le_trans (ih c).1 (le_of_lt h), ?_⟩
      intro v hv
      rcases List.mem_cons.1 hv with hveq | hv
      · rw [hveq]; exact (ih c).1
      · exact (ih c).2 v hv
    · rw [show minStep hd c = hd from if_neg h]
      refine ⟨(ih hd).1, ?_⟩
      intro v hv
      rcases List.mem_cons.1 hv with rfl | hv
      · exact le_trans (ih hd).1 (le_of_not_lt h)
      · exact (ih hd).2 v hv

/-- The minimum scan's result is the first element of seed-then-list whose
value equals the minimum. -/
theorem foldlMin_first (l : List (Row × ℚ)) : ∀ hd : Row × ℚ,
    (hd :: l).find? (fun c => decide (c.2 = (l.foldl minStep hd).2)) =
      some (l.foldl minStep hd) := by
  induction l with
  | nil =>
    intro hd
    simp [List.find?]
  | cons c t ih =>
    intro hd
    simp only [List.foldl_cons]
    by_cases h : c.2 < hd.2
    · simp only [show minStep hd c = c from if_pos h]
      have hle : (t.foldl minStep c).2 ≤ c.2 := (foldlMin_le t c).1
      have hne : ¬ (hd.2 = (t.foldl minStep c).2) :=
        (ne_of_lt (lt_of_le_of_lt hle h)).symm
      rw [List.find?_cons_of_neg _ (by simpa using hne)]
      exact ih c
    · simp only [show minStep hd c = hd from if_neg h]
      have hfind := ih hd
      by_cases hp : hd.2 = (t.foldl minStep hd).2
      · rw [List.find?_cons_of_pos _ (by simpa using hp)] at hfind
        rw [List.find?_cons_of_pos _ (by simpa using hp)]
        exact hfind
      · rw [List.find?_cons_of_neg _ (by simpa using hp)] at hfind
        have hdge : (t.foldl minStep hd).2 ≤ hd.2 := (foldlMin_le t hd).1
        have hdgt : (t.foldl minStep hd).2 < hd.2 :=
          lt_of_le_of_ne hdge (fun e => hp e.symm)
        have hcne : ¬ (c.2 = (t.foldl minStep hd).2) :=
          (ne_of_lt (lt_of_lt_of_le hdgt (le_of_not_lt h))).symm
        rw [List.find?_cons_of_neg _ (by simpa using hp),
          List.find?_cons_of_neg _ (by simpa using hcne)]
        exact hfind

/-! ## Claim theorems -/

/-- C5: `safe_pct(None)` and `safe_pct("non-numeric")` both return the
literal `"N/A"`, and `safe_pct(12.345)` returns `"12.35%"`.  The Python
float literal `12.345` denotes the IEEE-754 double `6949617174986097 / 2^49`
(slightly above the decimal 12.345), whose exact value rounds at two
decimals to 12.35 — matching CPython's output. -/
theorem safe_pct_values :
    safe_pct .null = "N/A" ∧ safe_pct (.str "non-numeric") = "N/A" ∧
      safe_pct (.num (6949617174986097 / 2 ^ 49)) = "12.35%" := by
  refine ⟨rfl, rfl, ?_⟩
  with_unfolding_all decide

/-- C1, counterexample: when the model's response parses as a well-formed
JSON array of the wrong length (here the empty array), the batch result's
length differs from the input length — the array is returned as is. -/
theorem batch_length_cex :
    ¬ ((analyze_sentiment_batch ["a", "b"] (.jsonArray [])).length =
        (["a", "b"] : List String).length) := by
  decide

/-- C1, amended: in every failure mode (client exception, non-JSON content,
JSON non-array) `analyze_sentiment_batch` synthesizes one Neutral entry per
input, so the output length equals the input length; but a response that
parses as a JSON array is returned verbatim, whatever its length. -/
theorem batch_length_spec :
    (∀ (texts : List String) (resp : LLMResp), (∀ xs, resp ≠ .jsonArray xs) →
      (analyze_sentiment_batch texts resp).length = texts.length ∧
        ∀ e ∈ analyze_sentiment_batch texts resp, e.sentiment = "Neutral") ∧
    (∀ (texts : List String) (xs : List SEntry),
      analyze_sentiment_batch texts (.jsonArray xs) = xs) := by
  constructor
  · intro texts resp hresp
    rcases resp with e | _ | _ | xs
    · refine ⟨by simp [analyze_sentiment_batch], ?_⟩
      intro e' he'
      simp only [analyze_sentiment_batch, List.mem_map] at he'
      obtain ⟨t, -, rfl⟩ := he'
      rfl
    · refine ⟨by simp [analyze_sentiment_batch], ?_⟩
      intro e' he'
      simp only [analyze_sentiment_batch, List.mem_map] at he'
      obtain ⟨t, -, rfl⟩ := he'
      rfl
    · refine ⟨by simp [analyze_sentiment_batch], ?_⟩
      intro e' he'
      simp only [analyze_sentiment_batch, List.mem_map] at he'
      obtain ⟨t, -, rfl⟩ := he'
      rfl
    · exact absurd rfl (hresp xs)
  · intro texts xs
    rfl

/-- Witness for the amended C1 at a concrete input. -/
theorem batch_length_spec_w :
    (analyze_sentiment_batch ["a", "b"] .nonJSON).length =
      (["a", "b"] : List String).length :=
  (batch_length_spec.1 ["a", "b"] .nonJSON (fun _ h => LLMResp.noConfusion h)).1

/-- C10, counterexample: when the model's response is the well-formed but
empty JSON array, `analyze_sentiment_batch([text])` returns `[]` and the
indexing `[0]` in `analyze_sentiment` raises `IndexError` (embedded as
`none`), so the claim that it never raises fails. -/
theorem single_sentiment_cex :
    analyze_sentiment "Bitcoin hits new high" (.jsonArray []) = none := rfl

/-- C10, amended: `analyze_sentiment(text)` returns the first element of
`analyze_sentiment_batch([text])`; on a well-formed JSON array it returns
the array's head and raises exactly when the array is empty; in every
failure mode the batch has length 1 and a Neutral entry for `text` is
returned without raising. -/
theorem single_sentiment_spec :
    (∀ (text : String) (xs : List SEntry),
      analyze_sentiment text (.jsonArray xs) = xs.head?) ∧
    (∀ (text : String) (resp : LLMResp), (∀ xs, resp ≠ .jsonArray xs) →
      (analyze_sentiment text resp).map SEntry.sentiment = some "Neutral" ∧
        (analyze_sentiment text resp).map SEntry.headline = some text) := by
  constructor
  · intro text xs
    rfl
  · intro text resp hresp
    rcases resp with e | _ | _ | xs
    · exact ⟨rfl, rfl⟩
    · exact ⟨rfl, rfl⟩
    · exact ⟨rfl, rfl⟩
    · exact absurd rfl (hresp xs)

/-- Witness for the amended C10 at a concrete input. -/
theorem single_sentiment_spec_w :
    (analyze_sentiment "btc up" (.apiErr "boom")).map SEntry.sentiment = some "Neutral" ∧
      analyze_sentiment "btc up" (.jsonArray [⟨"btc up", "Positive", "r"⟩]) =
        ([⟨"btc up", "Positive", "r"⟩] : List SEntry).head? :=
  ⟨(single_sentiment_spec.2 "btc up" (.apiErr "boom") (fun _ h => LLMResp.noConfusion h)).1,
   single_sentiment_spec.1 "btc up" [⟨"btc up", "Positive", "r"⟩]⟩

/-- C2, counterexample: with a stale, nonempty cache file on disk
(stamped 1000, read at 1301) and a request error on every attempt,
`fetch_crypto_data` returns the empty table after sleeps of 10 and 10 —
not the cached rows the claim promises.  The local `cached` variable is
always `None` on the retry path (a fresh-enough cache would have been
returned before the loop), so the `cached if cached is not None` fallback
can never produce the stale cache. -/
theorem fetch_fallback_cex :
    fetch_crypto_data 1301 (some ⟨1000, [staleRow]⟩) (fun _ => .reqErr) =
        ⟨[], [10, 10], true⟩ ∧
      (some (CacheFile.mk 1000 [staleRow])).isSome = true := by
  constructor
  · with_unfolding_all decide
  · rfl

/-- C2, amended: when no fresh cache is available the loop equals the
explicit table `netTable`: each HTTP 429 at 0-based attempt `i` sleeps
`30 * (i + 1)` seconds (even on the final attempt) and retries while an
attempt remains; any other request failure sleeps 10 seconds and retries
only when an attempt remains, and returns at once on the final attempt;
after exhausting all 3 attempts the function returns an empty result (the
stale cache file is never consulted there) — and no failure is ever raised
to the caller (the embedding is a total function). -/
theorem fetch_retry_table (now : ℚ) (file : Option CacheFile) (resps : ℕ → Resp)
    (h : load_cache now file = none) :
    fetch_crypto_data now file resps = netTable resps := by
  rcases h0 : resps 0 with d0 | _ | _ <;>
    rcases h1 : resps 1 with d1 | _ | _ <;>
      rcases h2 : resps 2 with d2 | _ | _ <;>
        simp [fetch_crypto_data, fetchRetry, netTable, h, h0, h1, h2]

/-- Witness for the amended C2 at a concrete input: all three attempts hit
the rate limit, so the sleeps are 30, 60 and 90 seconds and the result is
the empty table. -/
theorem fetch_retry_table_w :
    fetch_crypto_data 1301 (some ⟨1000, [staleRow]⟩) (fun _ => Resp.rate429) =
      netTable (fun _ => Resp.rate429) :=
  fetch_retry_table 1301 (some ⟨1000, [staleRow]⟩) (fun _ => Resp.rate429)
    (by with_unfolding_all decide)

/-- C4: with a cache file stamped `T` and TTL 300, a fetch strictly before
`T + 300` returns the cached rows verbatim, sleeps never, and makes no
network attempt; a fetch at or after `T + 300` attempts the network. -/
theorem fetch_cache_ttl (T : ℚ) (rows : List Row) (now : ℚ) (resps : ℕ → Resp) :
    (now < T + CACHE_TTL →
      fetch_crypto_data now (some ⟨T, rows⟩) resps = ⟨rows, [], false⟩) ∧
    (T + CACHE_TTL ≤ now →
      (fetch_crypto_data now (some ⟨T, rows⟩) resps).network = true) := by
  constructor
  · intro h
    have hlt : now - T < CACHE_TTL := by linarith
    simp [fetch_crypto_data, load_cache, hlt]
  · intro h
    have hge : ¬ (now - T < CACHE_TTL) := by simp; linarith
    simp [fetch_crypto_data, load_cache, hge, fetchRetry_network]

/-- Witness for C4 at concrete inputs: stamped at 1000, a fetch at 1299
returns the cache with no network attempt and a fetch at 1301 goes to the
network. -/
theorem fetch_cache_ttl_w :
    fetch_crypto_data 1299 (some ⟨1000, [staleRow]⟩) (fun _ => Resp.rate429) =
        ⟨[staleRow], [], false⟩ ∧
      (fetch_crypto_data 1301 (some ⟨1000, [staleRow]⟩) (fun _ => Resp.rate429)).network = true :=
  ⟨(fetch_cache_ttl 1000 [staleRow] 1299 (fun _ => Resp.rate429)).1
      (by rw [CACHE_TTL]; norm_num),
   (fetch_cache_ttl 1000 [staleRow] 1301 (fun _ => Resp.rate429)).2
      (by rw [CACHE_TTL]; norm_num)⟩

/-- C3: replacing any one of the five percentage-change fields of the
`j`-th asset by a malformed value (absent/null or non-numeric) makes that
asset's formatted row show `"N/A"` in that column, while every other
asset's row is exactly the row it gets from the well-formed data; the
parse is total, so no malformed field propagates an exception. -/
theorem pct_sentinel_isolated (data : List Coin) (j : ℕ) (c : Coin) (col : PctCol)
    (bad : JVal) (hc : data[j]? = some c) (hbad : isMalformedPct bad = true) :
    ((parseResults (data.set j (setPct c col bad)))[j]?).map (fun r => rowPct r col) =
      some "N/A" ∧
    ∀ i, i ≠ j →
      (parseResults (data.set j (setPct c col bad)))[i]? = (parseResults data)[i]? := by
  have hj : j < data.length := by
    rcases List.getElem?_eq_some.1 hc with ⟨hlt, -⟩
    exact hlt
  have hna : safe_pct bad = "N/A" := by
    rcases bad with _ | q | s
    · rfl
    · exact absurd hbad (by simp [isMalformedPct])
    · rfl
  constructor
  · rw [parseResults, List.getElem?_map, List.getElem?_set_self
      (by simpa using hj), Option.map_map]
    rcases col with _ | _ | _ | _ | _ <;>
      simp [Option.map, rowOfCoin, setPct, rowPct, hna]
  · intro i hij
    rw [parseResults, parseResults, List.getElem?_map, List.getElem?_map,
      List.getElem?_set_ne (fun h => hij h.symm)]

/-- Witness for C3 at a concrete input: corrupting the 7d field of the
first of two well-formed coins puts `"N/A"` in that cell and leaves the
second row untouched. -/
theorem pct_sentinel_isolated_w :
    (((parseResults ([coinBTC, coinETH].set 0 (setPct coinBTC .d7 (.str "oops"))))[0]?).map
        (fun r => rowPct r PctCol.d7) = some "N/A") ∧
      (parseResults ([coinBTC, coinETH].set 0 (setPct coinBTC .d7 (.str "oops"))))[1]? =
        (parseResults [coinBTC, coinETH])[1]? :=
  ⟨(pct_sentinel_isolated [coinBTC, coinETH] 0 coinBTC .d7 (.str "oops") rfl rfl).1,
   (pct_sentinel_isolated [coinBTC, coinETH] 0 coinBTC .d7 (.str "oops") rfl rfl).2 1
     (by decide)⟩

/-- C9: a major coin whose 24h-change cell fails the `float` parse (the
sentinel `"N/A"` included) gets `change_val = 0` from the bare `except`,
so its trend sentence is "stayed flat at" its price and it still appears in
the major-coin trend list, not excluded from it. -/
theorem major_na_flat (df : List Row) (r : Row) (hmem : r ∈ df)
    (hmaj : r.name ∈ major_coins)
    (hna : pyFloatQ (String.replace r.chg24h "%" "") = none) :
    chg24Val r = 0 ∧ majorTrend r = r.name ++ " stayed flat at " ++ r.price ∧
      (r.name ++ " stayed flat at " ++ r.price) ∈ majorTrends df := by
  have h0 : chg24Val r = 0 := by simp [chg24Val, hna]
  have ht : majorTrend r = r.name ++ " stayed flat at " ++ r.price := by
    simp [majorTrend, h0]
  refine ⟨h0, ht, ?_⟩
  unfold majorTrends
  exact List.mem_map.2 ⟨r, List.mem_filter.2 ⟨hmem, by simpa using hmaj⟩, ht⟩

/-- Witness for C9 at a concrete input: a Bitcoin row whose cells are all
`"N/A"` is described as flat and appears in the trend list. -/
theorem major_na_flat_w :
    majorTrend rowBTCNA = rowBTCNA.name ++ " stayed flat at " ++ rowBTCNA.price ∧
      (rowBTCNA.name ++ " stayed flat at " ++ rowBTCNA.price) ∈ majorTrends [rowBTCNA] :=
  ⟨(major_na_flat [rowBTCNA] rowBTCNA (by decide) (by decide)
      (by with_unfolding_all decide)).2.1,
   (major_na_flat [rowBTCNA] rowBTCNA (by decide) (by decide)
      (by with_unfolding_all decide)).2.2⟩

/-- C6: `generate_insights` on the empty table is the fixed no-data
warning; on a table with one gainer (+5%) and one loser (-3%) the narrative
names both rows by display name with their formatted 24h percentage; and
the gainer (loser) the section picks is maximal (minimal) among the numeric
values obtained by stripping the `%` sign, with ties broken by first-seen
row order: it is the first candidate whose value attains the extremum. -/
theorem insights_spec :
    generate_insights [] = WARN_NO_DATA ∧
    generate_insights [rowSOL, rowADA] =
      "🧠 Insight: Top gainer: Solana (5.00%), biggest loser: Cardano (-3.00%). " ++
        CLOSING ∧
    (∀ (df : List Row) (g : Row × ℚ), idxmaxSel (gainerCands df) = some g →
      (∀ v ∈ gainerCands df, v.2 ≤ g.2) ∧
        (gainerCands df).find? (fun c => decide (c.2 = g.2)) = some g) ∧
    (∀ (df : List Row) (lo : Row × ℚ), idxminSel (gainerCands df) = some lo →
      (∀ v ∈ gainerCands df, lo.2 ≤ v.2) ∧
        (gainerCands df).find? (fun c => decide (c.2 = lo.2)) = some lo) := by
  refine ⟨rfl, by with_unfolding_all decide, ?_, ?_⟩
  · intro df g hg
    rcases hc : gainerCands df with - | ⟨hd, t⟩ <;> rw [hc] at hg
    · exact absurd hg (by simp [idxmaxSel])
    · rw [idxmaxSel] at hg
      injection hg with hg
      subst hg
      refine ⟨?_, foldlMax_first t hd⟩
      intro v hv
      rcases List.mem_cons.1 hv with hveq | hv
      · rw [hveq]; exact (foldlMax_le t hd).1
      · exact (foldlMax_le t hd).2 v hv
  · intro df lo hlo
    rcases hc : gainerCands df with - | ⟨hd, t⟩ <;> rw [hc] at hlo
    · exact absurd hlo (by simp [idxminSel])
    · rw [idxminSel] at hlo
      injection hlo with hlo
      subst hlo
      refine ⟨?_, foldlMin_first t hd⟩
      intro v hv
      rcases List.mem_cons.1 hv with hveq | hv
      · rw [hveq]; exact (foldlMin_le t hd).1
      · exact (foldlMin_le t hd).2 v hv

/-- Witness for C6's extremum selection at a concrete input: among the
candidates of the gainer/loser table, the selected gainer (Solana, +5) is
the first candidate attaining the maximum. -/
theorem insights_spec_w :
    (gainerCands [rowSOL, rowADA]).find?
        (fun c => decide (c.2 = ((rowSOL, (5 : ℚ)) : Row × ℚ).2)) =
      some (rowSOL, 5) :=
  (insights_spec.2.2.1 [rowSOL, rowADA] (rowSOL, 5) (by with_unfolding_all decide)).2

/-- `pubLe` is transitive. -/
theorem pubLe_trans (x y z : Option ℤ) (hxy : pubLe x y = true) (hyz : pubLe y z = true) :
    pubLe x z = true := by
  rcases x with - | a <;> rcases y with - | b <;> rcases z with - | c <;>
    simp [pubLe] at * <;> omega

/-- `pubLe` is total. -/
theorem pubLe_total (x y : Option ℤ) : (pubLe x y || pubLe y x) = true := by
  rcases x with - | a <;> rcases y with - | b <;> simp [pubLe] <;> omega

/-- After an insert-or-ignore the inserted link is present. -/
theorem insertOrIgnore_has (s : List NewsRow) (a : Article) :
    (insertOrIgnore s a).any (fun r => r.link == a.link) = true := by
  unfold insertOrIgnore
  by_cases h : s.any (fun r => r.link == a.link) = true
  · rw [if_pos h]; exact h
  · rw [if_neg h]
    simp [List.any_append]

/-- Insert-or-ignore preserves the presence of any link. -/
theorem insertOrIgnore_mono (s : List NewsRow) (a : Article) (l : String)
    (h : s.any (fun r => r.link == l) = true) :
    (insertOrIgnore s a).any (fun r => r.link == l) = true := by
  unfold insertOrIgnore
  by_cases hp : s.any (fun r => r.link == a.link) = true
  · rw [if_pos hp]; exact h
  · rw [if_neg hp]
    simp [List.any_append, h]

/-- Insert-or-ignore of an already-present link is the identity. -/
theorem insertOrIgnore_of_has (s : List NewsRow) (a : Article)
    (h : s.any (fun r => r.link == a.link) = true) : insertOrIgnore s a = s := by
  unfold insertOrIgnore
  rw [if_pos h]

/-- The upsert fold preserves the presence of any link. -/
theorem foldl_insert_mono (df : List Article) : ∀ (s : List NewsRow) (l : String),
    s.any (fun r => r.link == l) = true →
    (df.foldl insertOrIgnore s).any (fun r => r.link == l) = true := by
  induction df with
  | nil => intro s l h; exact h
  | cons b t ih =>
    intro s l h
    rw [List.foldl_cons]
    exact ih _ _ (insertOrIgnore_mono s b l h)

/-- After the upsert fold every upserted article's link is present. -/
theorem foldl_insert_has (df : List Article) : ∀ (s : List NewsRow), ∀ a ∈ df,
    (df.foldl insertOrIgnore s).any (fun r => r.link == a.link) = true := by
  induction df with
  | nil => intro s a ha; cases ha
  | cons b t ih =>
    intro s a ha
    rw [List.foldl_cons]
    rcases List.mem_cons.1 ha with hab | ha
    · rw [hab]
      exact foldl_insert_mono t _ _ (insertOrIgnore_has s b)
    · exact ih _ a ha

/-- The upsert fold is the identity when every article's link is already
present. -/
theorem foldl_insert_noop (df : List Article) : ∀ (s : List NewsRow),
    (∀ a ∈ df, s.any (fun r => r.link == a.link) = true) →
    df.foldl insertOrIgnore s = s := by
  induction df with
  | nil => intro s _; rfl
  | cons b t ih =>
    intro s h
    rw [List.foldl_cons, insertOrIgnore_of_has s b (h b (List.mem_cons_self b t))]
    exact ih s (fun a ha => h a (List.mem_cons_of_mem b ha))

/-- `uniqueLinks` read as pairwise distinctness of links. -/
theorem uniqueLinks_iff (s : List NewsRow) :
    uniqueLinks s = true ↔ s.Pairwise (fun a b => ¬ (b.link = a.link)) := by
  induction s with
  | nil => simp [uniqueLinks]
  | cons r t ih =>
    rw [uniqueLinks, List.pairwise_cons, Bool.and_eq_true, ih,
      Bool.not_eq_true', ← Bool.not_eq_true, List.any_eq_true]
    constructor
    · rintro ⟨h1, h2⟩
      refine ⟨?_, h2⟩
      intro x hx hxr
      exact h1 ⟨x, hx, by simp [hxr]⟩
    · rintro ⟨h1, h2⟩
      refine ⟨?_, h2⟩
      rintro ⟨x, hx, hxr⟩
      exact h1 x hx (by simpa using hxr)

/-- Insert-or-ignore preserves link uniqueness. -/
theorem insertOrIgnore_unique (s : List NewsRow) (a : Article)
    (h : uniqueLinks s = true) : uniqueLinks (insertOrIgnore s a) = true := by
  unfold insertOrIgnore
  by_cases hp : s.any (fun r => r.link == a.link) = true
  · rw [if_pos hp]; exact h
  · rw [if_neg hp]
    rw [uniqueLinks_iff] at h ⊢
    rw [List.pairwise_append]
    refine ⟨h, by simp, ?_⟩
    intro x hx y hy
    simp only [List.mem_singleton] at hy
    subst hy
    intro he
    have he' : a.link = x.link := by simpa using he
    refine hp ?_
    rw [List.any_eq_true]
    exact ⟨x, hx, by simp [he']⟩

/-- The upsert fold preserves link uniqueness. -/
theorem foldl_insert_unique (df : List Article) : ∀ (s : List NewsRow),
    uniqueLinks s = true → uniqueLinks (df.foldl insertOrIgnore s) = true := by
  induction df with
  | nil => intro s h; exact h
  | cons b t ih =>
    intro s h
    rw [List.foldl_cons]
    exact ih _ (insertOrIgnore_unique s b h)

/-- A link-unique table carries at most one row per link. -/
theorem linkCount_le_one (s : List NewsRow) (h : uniqueLinks s = true) (l : String) :
    linkCount s l ≤ 1 := by
  induction s with
  | nil => simp [linkCount]
  | cons r t ih =>
    rw [uniqueLinks, Bool.and_eq_true, Bool.not_eq_true', ← Bool.not_eq_true] at h
    obtain ⟨h1, h2⟩ := h
    by_cases hr : (r.link == l) = true
    · have hz : linkCount t l = 0 := by
        rw [linkCount, List.length_eq_zero, List.filter_eq_nil_iff]
        intro x hx hxl
        refine h1 ?_
        rw [List.any_eq_true]
        have hx1 : x.link = l := by simpa using hxl
        have hr1 : r.link = l := by simpa using hr
        have hx2 : x.link = r.link := by rw [hx1, hr1]
        exact ⟨x, hx, by simp [hx2]⟩
      rw [linkCount, @List.filter_cons_of_pos _ (fun x => x.link == l) r t hr]
      have hzl : (t.filter (fun x => x.link == l)).length = 0 := hz
      simp [List.length_cons, hzl]
    · have hneg : ¬ ((fun x => x.link == l) r = true) := by simpa using hr
      rw [linkCount, @List.filter_cons_of_neg _ (fun x => x.link == l) r t hneg]
      exact ih h2

/-- The null-sentiment query returns at most 20 rows, all with null
sentiment, in descending published order. -/
theorem selectUnprocessed_spec (store : List NewsRow) :
    (selectUnprocessed store).length ≤ 20 ∧
    (∀ r ∈ selectUnprocessed store, r.sentiment = none) ∧
    List.Pairwise (fun x y => pubLe y.published x.published = true)
      (selectUnprocessed store) := by
  refine ⟨List.length_take_le 20 _, ?_, ?_⟩
  · intro r hr
    have hr1 : r ∈ (store.filter (fun r => r.sentiment.isNone)).mergeSort rowByPubDesc :=
      List.mem_of_mem_take hr
    have hr2 : r ∈ store.filter (fun r => r.sentiment.isNone) :=
      (List.mergeSort_perm _ _).mem_iff.1 hr1
    exact Option.isNone_iff_eq_none.1 (List.mem_filter.1 hr2).2
  · apply List.Pairwise.take
    exact @List.sorted_mergeSort _ rowByPubDesc
      (fun a b c hab hbc => pubLe_trans c.published b.published a.published hbc hab)
      (fun a b => pubLe_total b.published a.published)
      (store.filter (fun r => r.sentiment.isNone))

/-- A table holding some row with link `l` has a positive count for `l`. -/
theorem linkCount_pos (s : List NewsRow) (l : String)
    (h : s.any (fun r => r.link == l) = true) : 1 ≤ linkCount s l := by
  rw [List.any_eq_true] at h
  obtain ⟨x, hx, hxl⟩ := h
  have hmem : x ∈ s.filter (fun r => r.link == l) := List.mem_filter.2 ⟨hx, hxl⟩
  exact List.length_pos.2 (List.ne_nil_of_mem hmem)

/-- C7: the news store keeps at most one row per link.  Starting from a
link-unique table, the table after `fetch_crypto_news` is link-unique with
at most one row per link; a link already stored keeps exactly one row
(re-ingesting it adds nothing); every upserted article's link — the same
link fed from two different feeds included, since deduplication keeps one
occurrence — ends with exactly one stored row; and re-running
`fetch_crypto_news` with the same feeds leaves the table unchanged (the
insert-or-ignore upsert is idempotent across repeated runs). -/
theorem news_dedup_spec (feeds : List (List Article)) (store : List NewsRow)
    (h : uniqueLinks store = true) :
    uniqueLinks (fetch_crypto_news feeds store).2 = true ∧
    (∀ l, linkCount (fetch_crypto_news feeds store).2 l ≤ 1) ∧
    (∀ l, store.any (fun r => r.link == l) = true →
      linkCount (fetch_crypto_news feeds store).2 l = 1) ∧
    (∀ a ∈ ((dedupByLink [] feeds.flatten).mergeSort byPubDesc).take 20,
      linkCount (fetch_crypto_news feeds store).2 a.link = 1) ∧
    (fetch_crypto_news feeds ((fetch_crypto_news feeds store).2)).2 =
      (fetch_crypto_news feeds store).2 := by
  unfold fetch_crypto_news
  by_cases hdf : (dedupByLink [] feeds.flatten).isEmpty
  · simp only [hdf, if_true, if_pos]
    refine ⟨h, fun l => linkCount_le_one store h l, ?_, ?_, trivial⟩
    · intro l hl
      exact Nat.le_antisymm (linkCount_le_one store h l) (linkCount_pos store l hl)
    · intro a ha
      have hnil : dedupByLink [] feeds.flatten = [] := List.isEmpty_iff.1 hdf
      rw [hnil] at ha
      simp at ha
  · simp only [hdf, if_false, Bool.false_eq_true]
    have hu : uniqueLinks
        ((((dedupByLink [] feeds.flatten).mergeSort byPubDesc).take 20).foldl
          insertOrIgnore store) = true :=
      foldl_insert_unique _ store h
    refine ⟨hu, fun l => linkCount_le_one _ hu l, ?_, ?_,
      foldl_insert_noop _ _ (fun a ha => foldl_insert_has _ store a ha)⟩
    · intro l hl
      exact Nat.le_antisymm (linkCount_le_one _ hu l)
        (linkCount_pos _ l (foldl_insert_mono _ store l hl))
    · intro a ha
      exact Nat.le_antisymm (linkCount_le_one _ hu a.link)
        (linkCount_pos _ a.link (foldl_insert_has _ store a ha))

/-- Witness for C7 at a concrete input: the same link fed from two feeds
into an empty table is stored exactly once, and the resulting table is
link-unique. -/
theorem news_dedup_spec_w :
    linkCount (fetch_crypto_news [[artA, artB], [artA2]] []).2 "L1" = 1 ∧
      uniqueLinks (fetch_crypto_news [[artA, artB], [artA2]] []).2 = true :=
  ⟨(news_dedup_spec [[artA, artB], [artA2]] [] rfl).2.2.2.1 artA
     (by with_unfolding_all decide),
   (news_dedup_spec [[artA, artB], [artA2]] [] rfl).1⟩

/-- C8: the rows `fetch_crypto_news` returns all have a null sentiment
field, number at most 20, and are ordered by published time most recent
first (a row with an unparsed published time sorts after every timestamped
one, as SQLite's `ORDER BY … DESC` places NULLs last). -/
theorem news_query_spec (feeds : List (List Article)) (store : List NewsRow) :
    (fetch_crypto_news feeds store).1.length ≤ 20 ∧
    (∀ r ∈ (fetch_crypto_news feeds store).1, r.sentiment = none) ∧
    List.Pairwise (fun x y => pubLe y.published x.published = true)
      (fetch_crypto_news feeds store).1 := by
  unfold fetch_crypto_news
  by_cases hdf : (dedupByLink [] feeds.flatten).isEmpty
  · simp only [hdf, if_true, if_pos]
    exact ⟨by simp, by simp, by simp⟩
  · simp only [hdf, if_false, Bool.false_eq_true]
    exact selectUnprocessed_spec _

/-- Witness for C8 at a concrete input. -/
theorem news_query_spec_w :
    (fetch_crypto_news [[artA, artB], [artA2]] []).1.length ≤ 20 ∧
      List.Pairwise (fun x y => pubLe y.published x.published = true)
        (fetch_crypto_news [[artA, artB], [artA2]] []).1 :=
  ⟨(news_query_spec [[artA, artB], [artA2]] []).1,
   (news_query_spec [[artA, artB], [artA2]] []).2.2⟩

end CryptoDash
